import Mathlib

/-
Verification of the MCP proxy server (src/server/src/index.ts) against its
natural-language specification.  Strings from the JavaScript side are modelled
as `List Char`; JavaScript objects whose later assignments override earlier
ones are modelled as association lists with last-binding-wins lookup.
-/

/- ## Line Decoder (index.ts, `class LineDecoder`) -/

/-- Whitespace test matching JavaScript `trim` for the characters that occur
in this code base: `line.trim() === ""` holds exactly when every character of
the line is whitespace. -/
def isWsChar (c : Char) : Bool :=
  c = ' ' || c = '\t' || c = '\n' || c = '\r' || c = '\x0b' || c = '\x0c'

/-- `line.trim() === ""`: the line consists only of whitespace. -/
def isBlank (l : List Char) : Bool :=
  l.all isWsChar

/-- Models `this.buffer.split('\n')` followed by `lines.pop() || ""`:
returns the complete (newline-terminated) lines in order, paired with the
trailing unterminated remainder. -/
def splitPop : List Char → List (List Char) × List Char
  | [] => ([], [])
  | c :: rest =>
    let r := splitPop rest
    if c = '\n' then
      ([] :: r.1, r.2)
    else
      match r.1 with
      | [] => ([], c :: r.2)
      | l :: ls => ((c :: l) :: ls, r.2)

/-- The decoder state: the mutable `buffer` field. -/
structure LineDecoder where
  buffer : List Char

/-- The per-line emission of the decoder loop: a blank line is skipped,
otherwise `JSON.parse` (abstracted as `parse`) is attempted and a success is
handed to `onmessage`. -/
def lineEmit {μ : Type} (parse : List Char → Option μ) (line : List Char) : Option μ :=
  if isBlank line then none else parse line

/-- The per-line error report of the decoder loop: a non-blank line whose
parse fails is logged via `console.error`. -/
def lineErr {μ : Type} (parse : List Char → Option μ) (line : List Char) : Bool :=
  !isBlank line && (parse line).isNone

/-- `LineDecoder.push(chunk)`: append the chunk to the buffer, split on
newlines, retain the trailing remainder, and for each complete line skip it
if blank, emit the parsed message on success, or log an error on failure.
Returns the new decoder state, the emitted messages in order, and the number
of parse errors logged. -/
def LineDecoder.push {μ : Type} (parse : List Char → Option μ) (d : LineDecoder)
    (chunk : List Char) : LineDecoder × List μ × Nat :=
  let r := splitPop (d.buffer ++ chunk)
  (⟨r.2⟩, r.1.filterMap (lineEmit parse), (r.1.filter (lineErr parse)).length)

/-- Combining the line decomposition of two consecutive pieces of input:
the trailing remainder of the first piece is prepended to the first line of
the second piece. -/
def mergeChunks (a b : List (List Char) × List Char) : List (List Char) × List Char :=
  match b.1 with
  | [] => (a.1, a.2 ++ b.2)
  | l :: ls => (a.1 ++ (a.2 ++ l) :: ls, b.2)

theorem splitPop_append (a b : List Char) :
    splitPop (a ++ b) = mergeChunks (splitPop a) (splitPop b) := by
  induction a with
  | nil =>
    rcases hb : splitPop b with ⟨lb, tb⟩
    cases lb <;> simp [splitPop, mergeChunks, hb]
  | cons c a ih =>
    rcases hb : splitPop b with ⟨lb, tb⟩
    rcases ha : splitPop a with ⟨la, ta⟩
    rw [hb, ha] at ih
    by_cases hc : c = '\n'
    · subst hc
      cases lb <;> simp_all [splitPop, mergeChunks]
    · cases lb <;> cases la <;> simp_all [splitPop, mergeChunks]

theorem splitPop_no_newline (p : List Char) (h : '\n' ∉ p) :
    splitPop p = ([], p) := by
  induction p with
  | nil => rfl
  | cons c p ih =>
    simp only [List.mem_cons, not_or] at h
    have hc : ¬(c = '\n') := fun hh => h.1 hh.symm
    simp [splitPop, ih h.2, hc]

theorem splitPop_trailing_no_newline (a : List Char) : '\n' ∉ (splitPop a).2 := by
  induction a with
  | nil => simp [splitPop]
  | cons c a ih =>
    simp only [splitPop]
    by_cases hc : c = '\n'
    · simpa [hc] using ih
    · cases ha : (splitPop a).1 with
      | nil =>
        simp only [if_neg hc, ha, List.mem_cons, not_or]
        exact ⟨fun hn => hc hn.symm, ih⟩
      | cons l ls => simpa [if_neg hc, ha] using ih

theorem push_append {μ : Type} (parse : List Char → Option μ) (d : LineDecoder)
    (c1 c2 : List Char) :
    LineDecoder.push parse d (c1 ++ c2) =
      ((LineDecoder.push parse (LineDecoder.push parse d c1).1 c2).1,
       (LineDecoder.push parse d c1).2.1
         ++ (LineDecoder.push parse (LineDecoder.push parse d c1).1 c2).2.1,
       (LineDecoder.push parse d c1).2.2
         + (LineDecoder.push parse (LineDecoder.push parse d c1).1 c2).2.2) := by
  rcases h1 : splitPop (d.buffer ++ c1) with ⟨la, ta⟩
  rcases h2 : splitPop c2 with ⟨lb, tb⟩
  have hta : '\n' ∉ ta := by
    have h := splitPop_trailing_no_newline (d.buffer ++ c1)
    rw [h1] at h
    exact h
  have e1 : splitPop (d.buffer ++ (c1 ++ c2)) = mergeChunks (la, ta) (lb, tb) := by
    rw [← List.append_assoc, splitPop_append, h1, h2]
  have e2 : splitPop (ta ++ c2) = mergeChunks ([], ta) (lb, tb) := by
    rw [splitPop_append, splitPop_no_newline ta hta, h2]
  cases lb with
  | nil =>
    simp [LineDecoder.push, h1, e1, e2, mergeChunks]
  | cons l ls =>
    simp [LineDecoder.push, h1, e1, e2, mergeChunks, List.filterMap_append,
      List.filter_append, Nat.add_comm]

theorem splitPop_blank (x : List Char) (h : isBlank x = true) :
    (∀ l ∈ (splitPop x).1, isBlank l = true) ∧ isBlank (splitPop x).2 = true := by
  induction x with
  | nil => simp [splitPop, isBlank]
  | cons c x ih =>
    simp only [isBlank, List.all_cons, Bool.and_eq_true] at h
    obtain ⟨hc, hx⟩ := h
    have ih' := ih hx
    rcases hsp : splitPop x with ⟨ls, t⟩
    rw [hsp] at ih'
    by_cases hnl : c = '\n'
    · simp only [splitPop, hsp, if_pos hnl]
      refine ⟨?_, ih'.2⟩
      intro l hl
      rcases List.mem_cons.mp hl with h | h
      · simp [h, isBlank]
      · exact ih'.1 l h
    · cases ls with
      | nil =>
        simp only [splitPop, hsp, if_neg hnl]
        refine ⟨by simp, ?_⟩
        simpa [isBlank, hc] using ih'.2
      | cons l0 rest =>
        simp only [splitPop, hsp, if_neg hnl]
        refine ⟨?_, ih'.2⟩
        intro l hl
        rcases List.mem_cons.mp hl with h | h
        · have hl0 : isBlank l0 = true := ih'.1 l0 (by simp)
          subst h
          simpa [isBlank, hc] using hl0
        · exact ih'.1 l (by simp [h])

/- ## Concrete Line Decoder scenario data -/

/-- The first complete JSON line of the C4 scenario. -/
def jsonLine1 : List Char := "\x7b\"a\":1\x7d".data

/-- The second complete JSON line of the C4 scenario. -/
def jsonLine2 : List Char := "\x7b\"a\":2\x7d".data

/-- First pushed chunk: a complete line plus the prefix of a split line. -/
def jsonChunk1 : List Char := "\x7b\"a\":1\x7d\n\x7b\"a\":".data

/-- Second pushed chunk: the remainder of the split line. -/
def jsonChunk2 : List Char := "2\x7d\n".data

/-- The buffered remainder after the first chunk. -/
def jsonTail1 : List Char := "\x7b\"a\":".data

/-- A concrete parse function recognising the two scenario lines, standing in
for `JSON.parse` in witness instances. -/
def toyParse : List Char → Option Nat :=
  fun l => if l = jsonLine1 then some 1 else if l = jsonLine2 then some 2 else none

/-- C4: pushing the chunk with text `{"a":1}` + newline + the prefix of
`{"a":2}`, followed by the chunk holding the rest of `{"a":2}` + newline,
emits exactly the message parsed from the first line on the first push and
exactly the message parsed from the second line on the second push (never
three messages, never zero), leaving an empty buffer; and in general pushing
any input split at any chunk boundary gives the same messages, errors and
final buffer as pushing it whole, because text after the last newline of a
chunk is retained and prepended to the next chunk. -/
theorem lineDecoder_chunk_boundary {μ : Type} (parse : List Char → Option μ)
    (m1 m2 : μ) (d : LineDecoder) (c1 c2 : List Char)
    (h1 : parse jsonLine1 = some m1) (h2 : parse jsonLine2 = some m2) :
    (LineDecoder.push parse ⟨[]⟩ jsonChunk1).2.1 = [m1]
    ∧ (LineDecoder.push parse (LineDecoder.push parse ⟨[]⟩ jsonChunk1).1 jsonChunk2).2.1 = [m2]
    ∧ (LineDecoder.push parse (LineDecoder.push parse ⟨[]⟩ jsonChunk1).1 jsonChunk2).1.buffer = []
    ∧ LineDecoder.push parse d (c1 ++ c2) =
        ((LineDecoder.push parse (LineDecoder.push parse d c1).1 c2).1,
         (LineDecoder.push parse d c1).2.1
           ++ (LineDecoder.push parse (LineDecoder.push parse d c1).1 c2).2.1,
         (LineDecoder.push parse d c1).2.2
           + (LineDecoder.push parse (LineDecoder.push parse d c1).1 c2).2.2) := by
  have e1 : splitPop jsonChunk1 = ([jsonLine1], jsonTail1) := by decide
  have e2 : splitPop (jsonTail1 ++ jsonChunk2) = ([jsonLine2], []) := by decide
  have hb1 : isBlank jsonLine1 = false := by decide
  have hb2 : isBlank jsonLine2 = false := by decide
  have key1 : LineDecoder.push parse ⟨[]⟩ jsonChunk1 = (⟨jsonTail1⟩, [m1], 0) := by
    simp only [LineDecoder.push]
    rw [show (⟨[]⟩ : LineDecoder).buffer ++ jsonChunk1 = jsonChunk1 from List.nil_append _, e1]
    simp [lineEmit, lineErr, hb1, h1]
  have key2 : LineDecoder.push parse ⟨jsonTail1⟩ jsonChunk2 = (⟨[]⟩, [m2], 0) := by
    simp only [LineDecoder.push]
    rw [show (⟨jsonTail1⟩ : LineDecoder).buffer ++ jsonChunk2 = jsonTail1 ++ jsonChunk2 from rfl, e2]
    simp [lineEmit, lineErr, hb2, h2]
  refine ⟨?_, ?_, ?_, push_append parse d c1 c2⟩
  · rw [key1]
  · rw [key1, key2]
  · rw [key1, key2]

/-- Witness for C4 at the concrete scenario, with `toyParse` standing in for
the external parser. -/
theorem lineDecoder_chunk_boundary_witness :
    (LineDecoder.push toyParse ⟨[]⟩ jsonChunk1).2.1 = [1]
    ∧ (LineDecoder.push toyParse (LineDecoder.push toyParse ⟨[]⟩ jsonChunk1).1 jsonChunk2).2.1 = [2]
    ∧ (LineDecoder.push toyParse (LineDecoder.push toyParse ⟨[]⟩ jsonChunk1).1 jsonChunk2).1.buffer = []
    ∧ LineDecoder.push toyParse ⟨[]⟩ (jsonChunk1 ++ jsonChunk2) =
        ((LineDecoder.push toyParse (LineDecoder.push toyParse ⟨[]⟩ jsonChunk1).1 jsonChunk2).1,
         (LineDecoder.push toyParse ⟨[]⟩ jsonChunk1).2.1
           ++ (LineDecoder.push toyParse (LineDecoder.push toyParse ⟨[]⟩ jsonChunk1).1 jsonChunk2).2.1,
         (LineDecoder.push toyParse ⟨[]⟩ jsonChunk1).2.2
           + (LineDecoder.push toyParse (LineDecoder.push toyParse ⟨[]⟩ jsonChunk1).1 jsonChunk2).2.2) :=
  lineDecoder_chunk_boundary toyParse 1 2 ⟨[]⟩ jsonChunk1 jsonChunk2 (by decide) (by decide)

/-- C5: a complete non-blank line whose parse fails is logged (one error is
reported) and skipped: it emits no message, the push completes normally, and
it does not affect any other line - feeding one malformed line then one valid
line emits only the valid line's message; in general a failing line inside
any sequence of complete lines contributes no message and exactly one logged
error, leaving the other lines' messages unchanged. -/
theorem lineDecoder_bad_line_skipped {μ : Type} (parse : List Char → Option μ)
    (bad good : List Char) (m : μ) (la lb : List (List Char))
    (hbadb : isBlank bad = false) (hbadp : parse bad = none)
    (hgoodb : isBlank good = false) (hgoodp : parse good = some m)
    (hbadn : '\n' ∉ bad) (hgoodn : '\n' ∉ good) :
    (LineDecoder.push parse ⟨[]⟩ ((bad ++ ['\n']) ++ (good ++ ['\n']))).2.1 = [m]
    ∧ (LineDecoder.push parse ⟨[]⟩ ((bad ++ ['\n']) ++ (good ++ ['\n']))).2.2 = 1
    ∧ (LineDecoder.push parse ⟨[]⟩ ((bad ++ ['\n']) ++ (good ++ ['\n']))).1.buffer = []
    ∧ (la ++ bad :: lb).filterMap (lineEmit parse)
        = la.filterMap (lineEmit parse) ++ lb.filterMap (lineEmit parse)
    ∧ ((la ++ bad :: lb).filter (lineErr parse)).length
        = (la.filter (lineErr parse)).length + ((lb.filter (lineErr parse)).length + 1) := by
  have eb : lineEmit parse bad = none := by simp [lineEmit, hbadb, hbadp]
  have eg : lineEmit parse good = some m := by simp [lineEmit, hgoodb, hgoodp]
  have rb : lineErr parse bad = true := by simp [lineErr, hbadb, hbadp]
  have rg : lineErr parse good = false := by simp [lineErr, hgoodb, hgoodp]
  have s1 : splitPop (bad ++ ['\n']) = ([bad], []) := by
    rw [splitPop_append, splitPop_no_newline bad hbadn]
    simp [splitPop, mergeChunks]
  have s2 : splitPop (good ++ ['\n']) = ([good], []) := by
    rw [splitPop_append, splitPop_no_newline good hgoodn]
    simp [splitPop, mergeChunks]
  have s3 : splitPop ((bad ++ ['\n']) ++ (good ++ ['\n'])) = ([bad, good], []) := by
    rw [splitPop_append, s1, s2]
    simp [mergeChunks]
  have key : LineDecoder.push parse ⟨[]⟩ ((bad ++ ['\n']) ++ (good ++ ['\n']))
      = (⟨[]⟩, [m], 1) := by
    simp only [LineDecoder.push]
    rw [show (⟨[]⟩ : LineDecoder).buffer ++ ((bad ++ ['\n']) ++ (good ++ ['\n']))
          = (bad ++ ['\n']) ++ (good ++ ['\n']) from List.nil_append _, s3]
    simp [eb, eg, rb, rg]
  refine ⟨by rw [key], by rw [key], by rw [key], ?_, ?_⟩
  · simp [List.filterMap_append, eb]
  · simp [List.filter_append, rb, Nat.add_comm]

/-- Witness for C5: the malformed line `zzz` followed by the valid line
`jsonLine1`, with `toyParse` standing in for the external parser. -/
theorem lineDecoder_bad_line_skipped_witness :
    (LineDecoder.push toyParse ⟨[]⟩ (("zzz".data ++ ['\n']) ++ (jsonLine1 ++ ['\n']))).2.1 = [1]
    ∧ (LineDecoder.push toyParse ⟨[]⟩ (("zzz".data ++ ['\n']) ++ (jsonLine1 ++ ['\n']))).2.2 = 1
    ∧ (LineDecoder.push toyParse ⟨[]⟩ (("zzz".data ++ ['\n']) ++ (jsonLine1 ++ ['\n']))).1.buffer = []
    ∧ ([] ++ "zzz".data :: [jsonLine2]).filterMap (lineEmit toyParse)
        = List.filterMap (lineEmit toyParse) [] ++ List.filterMap (lineEmit toyParse) [jsonLine2]
    ∧ (([] ++ "zzz".data :: [jsonLine2]).filter (lineErr toyParse)).length
        = (List.filter (lineErr toyParse) []).length
            + ((List.filter (lineErr toyParse) [jsonLine2]).length + 1) :=
  lineDecoder_bad_line_skipped toyParse "zzz".data jsonLine1 1 [] [jsonLine2]
    (by decide) (by decide) (by decide) (by decide) (by decide) (by decide)

/-- C9: a complete line consisting only of whitespace emits no message and is
not reported as a parse error - it is dropped by the `line.trim() === ""`
guard before the parse function is ever consulted (the result is the same for
every parse function); pushing such a line leaves the decoder empty with no
messages and no errors. -/
theorem lineDecoder_blank_skip {μ : Type} (parse : List Char → Option μ)
    (ws : List Char) (h : isBlank ws = true) :
    lineEmit parse ws = none
    ∧ lineErr parse ws = false
    ∧ LineDecoder.push parse ⟨[]⟩ (ws ++ ['\n']) = (⟨[]⟩, [], 0) := by
  refine ⟨by simp [lineEmit, h], by simp [lineErr, h], ?_⟩
  rcases hsp : splitPop ws with ⟨ls, t⟩
  have hblank := splitPop_blank ws h
  rw [hsp] at hblank
  have s1 : splitPop (ws ++ ['\n']) = (ls ++ [t], []) := by
    rw [splitPop_append, hsp]
    simp [splitPop, mergeChunks]
  have hall : ∀ l ∈ ls ++ [t], isBlank l = true := by
    intro l hl
    rcases List.mem_append.mp hl with h' | h'
    · exact hblank.1 l h'
    · simp only [List.mem_singleton] at h'
      exact h' ▸ hblank.2
  have hfm : List.filterMap (lineEmit parse) (ls ++ [t]) = [] :=
    List.filterMap_eq_nil_iff.mpr (fun l hl => by simp [lineEmit, hall l hl])
  have hfl : List.filter (lineErr parse) (ls ++ [t]) = [] :=
    List.filter_eq_nil_iff.mpr (fun l hl => by simp [lineErr, hall l hl])
  simp only [LineDecoder.push]
  rw [show (⟨[]⟩ : LineDecoder).buffer ++ (ws ++ ['\n']) = ws ++ ['\n'] from List.nil_append _, s1]
  simp [hfm, hfl]

/-- Witness for C9 at the whitespace line of a space and a tab. -/
theorem lineDecoder_blank_skip_witness :
    lineEmit toyParse [' ', '\t'] = none
    ∧ lineErr toyParse [' ', '\t'] = false
    ∧ LineDecoder.push toyParse ⟨[]⟩ ([' ', '\t'] ++ ['\n']) = (⟨[]⟩, [], 0) :=
  lineDecoder_blank_skip toyParse [' ', '\t'] (by decide)

/- ## Remote Transport Factory header allow-lists (index.ts, createTransport) -/

/-- A header value as it appears on a Node request object: a single string or
an array of strings. -/
inductive HVal
  | single (v : String)
  | multi (vs : List String)

/-- `Array.isArray(value) ? value[value.length - 1] : value`: the value
actually copied into the outbound headers object.  For an array value the
last element is taken.  (Node never produces an empty header-value array,
which would index out of range; that impossible case is modelled as copying
nothing.) -/
def passValue : HVal → Option String
  | .single v => some v
  | .multi vs => vs.getLast?

/-- The allow-list for the sse transport style. -/
def SSE_HEADERS_PASSTHROUGH : List String := ["authorization"]

/-- The allow-list for the streamable-http transport style. -/
def STREAMABLE_HTTP_HEADERS_PASSTHROUGH : List String :=
  ["authorization", "mcp-session-id", "last-event-id"]

/-- The outbound entry produced for allow-listed key `k`: nothing when the
inbound request does not carry the header, otherwise the copied value keyed
by `k`. -/
def entryOf (reqH : String → Option HVal) (k : String) : Option (String × String) :=
  ((reqH k).bind passValue).map (fun s => (k, s))

/-- The outbound `headers` object built by `createTransport`: the fixed
`Accept` entry, then one entry per allow-listed key present on the inbound
request. -/
def buildHeaders (allow : List String) (accept : String)
    (reqH : String → Option HVal) : List (String × String) :=
  ("Accept", accept) :: allow.filterMap (entryOf reqH)

/-- The outbound headers of the sse branch of `createTransport`. -/
def sseOutboundHeaders (reqH : String → Option HVal) : List (String × String) :=
  buildHeaders SSE_HEADERS_PASSTHROUGH "text/event-stream" reqH

/-- The outbound headers of the streamable-http branch of `createTransport`. -/
def streamableOutboundHeaders (reqH : String → Option HVal) : List (String × String) :=
  buildHeaders STREAMABLE_HTTP_HEADERS_PASSTHROUGH "text/event-stream, application/json" reqH

/-- Header lookup in the outbound headers object (keys are distinct, so the
first binding is the binding). -/
def headerLookup (hs : List (String × String)) (k : String) : Option String :=
  match hs with
  | [] => none
  | (k', v) :: rest => if k' = k then some v else headerLookup rest k

theorem headerLookup_entries_not_mem (allow : List String) (reqH : String → Option HVal)
    (k : String) (hk : k ∉ allow) :
    headerLookup (allow.filterMap (entryOf reqH)) k = none := by
  induction allow with
  | nil => rfl
  | cons a rest ih =>
    simp only [List.mem_cons, not_or] at hk
    simp only [List.filterMap_cons]
    cases h : entryOf reqH a with
    | none => exact ih hk.2
    | some p =>
      obtain ⟨s, _, rfl⟩ := Option.map_eq_some'.mp h
      simp only [headerLookup]
      rw [if_neg (Ne.symm hk.1)]
      exact ih hk.2

theorem headerLookup_not_mem (allow : List String) (accept : String)
    (reqH : String → Option HVal) (k : String) (hk : k ∉ allow) (hacc : k ≠ "Accept") :
    headerLookup (buildHeaders allow accept reqH) k = none := by
  simp only [buildHeaders, headerLookup]
  rw [if_neg (Ne.symm hacc)]
  exact headerLookup_entries_not_mem allow reqH k hk

theorem headerLookup_entries_mem (allow : List String) (reqH : String → Option HVal)
    (k s : String) (hk : k ∈ allow) (hv : (reqH k).bind passValue = some s) :
    headerLookup (allow.filterMap (entryOf reqH)) k = some s := by
  induction allow with
  | nil => cases hk
  | cons a rest ih =>
    simp only [List.filterMap_cons]
    by_cases hak : a = k
    · subst hak
      rw [show entryOf reqH a = some (a, s) by simp [entryOf, hv]]
      simp [headerLookup]
    · have hk' : k ∈ rest := by
        rcases List.mem_cons.mp hk with h | h
        · exact (hak h.symm).elim
        · exact h
      cases h : entryOf reqH a with
      | none => exact ih hk'
      | some p =>
        obtain ⟨s', _, rfl⟩ := Option.map_eq_some'.mp h
        simp only [headerLookup]
        rw [if_neg hak]
        exact ih hk'

theorem headerLookup_mem (allow : List String) (accept : String)
    (reqH : String → Option HVal) (k s : String) (hk : k ∈ allow) (hacc : k ≠ "Accept")
    (hv : (reqH k).bind passValue = some s) :
    headerLookup (buildHeaders allow accept reqH) k = some s := by
  simp only [buildHeaders, headerLookup]
  rw [if_neg (Ne.symm hacc)]
  exact headerLookup_entries_mem allow reqH k s hk hv

theorem filter_entries_not_mem (allow : List String) (reqH : String → Option HVal)
    (k : String) (hk : k ∉ allow) :
    (allow.filterMap (entryOf reqH)).filter (fun p => p.1 == k) = [] := by
  refine List.filter_eq_nil_iff.mpr ?_
  intro p hp
  obtain ⟨a, ha, he⟩ := List.mem_filterMap.mp hp
  obtain ⟨s, _, rfl⟩ := Option.map_eq_some'.mp he
  simp only [beq_iff_eq]
  exact fun h => hk (h ▸ ha)

theorem filter_entries_mem (allow : List String) (reqH : String → Option HVal)
    (k s : String) (hnd : allow.Nodup) (hk : k ∈ allow)
    (hv : (reqH k).bind passValue = some s) :
    (allow.filterMap (entryOf reqH)).filter (fun p => p.1 == k) = [(k, s)] := by
  induction allow with
  | nil => cases hk
  | cons a rest ih =>
    rw [List.nodup_cons] at hnd
    simp only [List.filterMap_cons]
    by_cases hak : a = k
    · subst hak
      rw [show entryOf reqH a = some (a, s) by simp [entryOf, hv]]
      simp only [List.filter_cons]
      rw [show ((a, s).1 == a) = true by simp]
      rw [filter_entries_not_mem rest reqH a hnd.1]
      simp
    · have hk' : k ∈ rest := by
        rcases List.mem_cons.mp hk with h | h
        · exact (hak h.symm).elim
        · exact h
      cases h : entryOf reqH a with
      | none => exact ih hnd.2 hk'
      | some p =>
        obtain ⟨s', _, rfl⟩ := Option.map_eq_some'.mp h
        simp only [List.filter_cons]
        rw [show ((a, s').1 == k) = false from beq_eq_false_iff_ne.mpr hak]
        simp only [Bool.false_eq_true, if_false]
        exact ih hnd.2 hk'

theorem filter_buildHeaders (allow : List String) (accept : String)
    (reqH : String → Option HVal) (k s : String) (hnd : allow.Nodup) (hk : k ∈ allow)
    (hacc : k ≠ "Accept") (hv : (reqH k).bind passValue = some s) :
    (buildHeaders allow accept reqH).filter (fun p => p.1 == k) = [(k, s)] := by
  simp only [buildHeaders, List.filter_cons]
  rw [show (("Accept", accept).1 == k) = false from beq_eq_false_iff_ne.mpr (Ne.symm hacc)]
  simp only [Bool.false_eq_true, if_false]
  exact filter_entries_mem allow reqH k s hnd hk hv

/-- C6: a header whose (lowercased) name is not in the fixed allow-list of
the chosen transport style never appears among the outbound connection's
headers, with each style gated on its own list - in particular a header such
as `mcp-session-id` or `last-event-id`, allow-listed only for streamable-http,
still never crosses the sse boundary (the only other outbound entry is the
fixed `Accept` one, which the factory itself supplies) - while an
allow-listed header present on the inbound request with a single value is
passed through with its value unchanged. -/
theorem header_allowlist (reqH : String → Option HVal) (kd1 kd2 ka kb v w : String)
    (hd1 : kd1 ∉ SSE_HEADERS_PASSTHROUGH) (hd1acc : kd1 ≠ "Accept")
    (hd2 : kd2 ∉ STREAMABLE_HTTP_HEADERS_PASSTHROUGH) (hd2acc : kd2 ≠ "Accept")
    (ha : ka ∈ SSE_HEADERS_PASSTHROUGH) (hv : reqH ka = some (.single v))
    (hb : kb ∈ STREAMABLE_HTTP_HEADERS_PASSTHROUGH) (hw : reqH kb = some (.single w)) :
    headerLookup (sseOutboundHeaders reqH) kd1 = none
    ∧ headerLookup (streamableOutboundHeaders reqH) kd2 = none
    ∧ headerLookup (sseOutboundHeaders reqH) ka = some v
    ∧ headerLookup (streamableOutboundHeaders reqH) kb = some w := by
  have haacc : ka ≠ "Accept" := by
    intro h
    subst h
    exact absurd ha (by decide)
  have hbacc : kb ≠ "Accept" := by
    intro h
    subst h
    exact absurd hb (by decide)
  exact ⟨headerLookup_not_mem _ _ _ _ hd1 hd1acc,
         headerLookup_not_mem _ _ _ _ hd2 hd2acc,
         headerLookup_mem _ _ _ _ _ ha haacc (by simp [hv, passValue]),
         headerLookup_mem _ _ _ _ _ hb hbacc (by simp [hw, passValue])⟩

/-- A concrete inbound header map for witness instances: an allow-listed
authorization header, an allow-listed session header, and a disallowed
cookie. -/
def reqSample : String → Option HVal :=
  fun k =>
    if k = "authorization" then some (.single "Bearer token123")
    else if k = "mcp-session-id" then some (.single "sid-1")
    else if k = "cookie" then some (.single "secret") else none

/-- Witness for C6: the session header, although present inbound and
allow-listed for streamable-http, never crosses the sse boundary; the cookie
never crosses the streamable-http boundary; authorization and the session
header cross their respective boundaries unchanged. -/
theorem header_allowlist_witness :
    headerLookup (sseOutboundHeaders reqSample) "mcp-session-id" = none
    ∧ headerLookup (streamableOutboundHeaders reqSample) "cookie" = none
    ∧ headerLookup (sseOutboundHeaders reqSample) "authorization" = some "Bearer token123"
    ∧ headerLookup (streamableOutboundHeaders reqSample) "mcp-session-id" = some "sid-1" :=
  header_allowlist reqSample "mcp-session-id" "cookie" "authorization" "mcp-session-id"
    "Bearer token123" "sid-1"
    (by decide) (by decide) (by decide) (by decide) (by decide) rfl (by decide) rfl

/-- C10: when an inbound request carries an array of values for an
allow-listed header, exactly one entry for that header reaches the outbound
connection, and its value is the last element of the array - all earlier
values are discarded; this holds in both the sse and the streamable-http
branches of `createTransport`. -/
theorem header_multi_last (reqH : String → Option HVal) (ka kb : String)
    (va vb : List String) (sa sb : String)
    (hka : ka ∈ SSE_HEADERS_PASSTHROUGH) (hkb : kb ∈ STREAMABLE_HTTP_HEADERS_PASSTHROUGH)
    (hra : reqH ka = some (.multi va)) (hrb : reqH kb = some (.multi vb))
    (hsa : va.getLast? = some sa) (hsb : vb.getLast? = some sb) :
    headerLookup (sseOutboundHeaders reqH) ka = some sa
    ∧ (sseOutboundHeaders reqH).filter (fun p => p.1 == ka) = [(ka, sa)]
    ∧ headerLookup (streamableOutboundHeaders reqH) kb = some sb
    ∧ (streamableOutboundHeaders reqH).filter (fun p => p.1 == kb) = [(kb, sb)] := by
  have haacc : ka ≠ "Accept" := by
    intro h
    subst h
    exact absurd hka (by decide)
  have hbacc : kb ≠ "Accept" := by
    intro h
    subst h
    exact absurd hkb (by decide)
  have hva : (reqH ka).bind passValue = some sa := by simp [hra, passValue, hsa]
  have hvb : (reqH kb).bind passValue = some sb := by simp [hrb, passValue, hsb]
  have hndS : SSE_HEADERS_PASSTHROUGH.Nodup := by decide
  have hndT : STREAMABLE_HTTP_HEADERS_PASSTHROUGH.Nodup := by decide
  exact ⟨headerLookup_mem _ _ _ _ _ hka haacc hva,
         filter_buildHeaders _ _ _ _ _ hndS hka haacc hva,
         headerLookup_mem _ _ _ _ _ hkb hbacc hvb,
         filter_buildHeaders _ _ _ _ _ hndT hkb hbacc hvb⟩

/-- A concrete inbound header map carrying array values for witness
instances. -/
def reqMulti : String → Option HVal :=
  fun k =>
    if k = "authorization" then some (.multi ["Bearer old", "Bearer new"])
    else if k = "last-event-id" then some (.multi ["1", "2", "3"]) else none

/-- Witness for C10: the last array element is the one copied, once. -/
theorem header_multi_last_witness :
    headerLookup (sseOutboundHeaders reqMulti) "authorization" = some "Bearer new"
    ∧ (sseOutboundHeaders reqMulti).filter (fun p => p.1 == "authorization")
        = [("authorization", "Bearer new")]
    ∧ headerLookup (streamableOutboundHeaders reqMulti) "last-event-id" = some "3"
    ∧ (streamableOutboundHeaders reqMulti).filter (fun p => p.1 == "last-event-id")
        = [("last-event-id", "3")] :=
  header_multi_last reqMulti "authorization" "last-event-id"
    ["Bearer old", "Bearer new"] ["1", "2", "3"] "Bearer new" "3"
    (by decide) (by decide) rfl rfl rfl rfl

/- ## Session Registry and connection handlers (index.ts) -/

/-- The two registry maps, `webAppTransports` and `backingServerTransports`,
modelled by the session ids they contain. -/
structure Registry where
  webApp : List String
  backing : List String
deriving DecidableEq

/-- Outcome of `await createTransport(req)`: success, an `SseError` with
code 401, or any other thrown error. -/
inductive ConnectOutcome
  | ok
  | authErr401
  | otherErr
deriving DecidableEq

/-- What a handler leaves behind: the registry, the explicit error status it
responded with (`none` when it opened/continued a stream instead), and how
many times it invoked `createTransport`. -/
structure HandlerResult where
  reg : Registry
  status : Option Nat
  connectAttempts : Nat
deriving DecidableEq

/-- The `GET /sse` handler, in source order: the client-facing transport is
registered in `webAppTransports` first, then `createTransport` is awaited;
on success the backing transport is registered; an upstream 401 is answered
with status 401 and the handler returns; any other error propagates to the
outer catch, which only logs (the stream headers are already sent).  In the
failure branches nothing removes the `webAppTransports` entry. -/
def sseHandler (R : Registry) (sid : String) (o : ConnectOutcome) : HandlerResult :=
  let R1 : Registry := ⟨sid :: R.webApp, R.backing⟩
  match o with
  | .ok => ⟨⟨R1.webApp, sid :: R1.backing⟩, none, 1⟩
  | .authErr401 => ⟨R1, some 401, 1⟩
  | .otherErr => ⟨R1, none, 1⟩

/-- The `POST /mcp` handler for a request without a session id header:
`createTransport` is awaited before any registration; an upstream 401 is
answered with 401, any other error with 500, and in both error cases neither
map is touched.  On success the two maps are populated together inside the
single synchronous session-id callback (when it fires, `sessionInitDone`),
which also installs the onclose cleanup. -/
def mcpPostNewSession (R : Registry) (sid : String) (o : ConnectOutcome)
    (sessionInitDone : Bool) : HandlerResult :=
  match o with
  | .ok =>
    if sessionInitDone then ⟨⟨sid :: R.webApp, sid :: R.backing⟩, none, 1⟩
    else ⟨R, none, 1⟩
  | .authErr401 => ⟨R, some 401, 1⟩
  | .otherErr => ⟨R, some 500, 1⟩

/-- The `webAppTransport.onclose` teardown shared by all flows: both entries
for the session id are deleted together. -/
def registryCleanup (R : Registry) (sid : String) : Registry :=
  ⟨R.webApp.filter (fun s => s != sid), R.backing.filter (fun s => s != sid)⟩

/-- The pairing invariant claimed by the spec: each session id is in both
maps or in neither. -/
def pairInv (R : Registry) : Prop :=
  ∀ s, s ∈ R.webApp ↔ s ∈ R.backing

/-- Counterexample to C1 as stated: after a failed `/sse` establishment
(upstream 401), the attempted session id is present in `webAppTransports`
but absent from `backingServerTransports` - exactly one of the two maps
contains it. -/
theorem sse_failure_half_pair :
    "s1" ∈ (sseHandler ⟨[], []⟩ "s1" .authErr401).reg.webApp
    ∧ "s1" ∉ (sseHandler ⟨[], []⟩ "s1" .authErr401).reg.backing := by
  decide

/-- C1 as amended: in the streamable-http (`/mcp`) flow the pairing
invariant is preserved by session establishment (in every outcome) and by
teardown; in the `/sse` flow it is preserved when establishment succeeds -
but a failed `/sse` establishment leaves the client-facing entry registered
alone (see the counterexample). -/
theorem registry_pairing_amended :
    (∀ (R : Registry) (sid : String) (o : ConnectOutcome) (b : Bool),
        pairInv R → pairInv (mcpPostNewSession R sid o b).reg)
    ∧ (∀ (R : Registry) (sid : String), pairInv R → pairInv (sseHandler R sid .ok).reg)
    ∧ (∀ (R : Registry) (sid : String), pairInv R → pairInv (registryCleanup R sid)) := by
  refine ⟨?_, ?_, ?_⟩
  · intro R sid o b h
    cases o with
    | ok =>
      cases b with
      | false => exact h
      | true => intro s; simp [mcpPostNewSession, h s]
    | authErr401 => exact h
    | otherErr => exact h
  · intro R sid h s
    simp [sseHandler, h s]
  · intro R sid h s
    simp [registryCleanup, List.mem_filter, h s]

/-- Witness for the amended C1 at concrete inputs. -/
theorem registry_pairing_amended_witness :
    pairInv (mcpPostNewSession ⟨[], []⟩ "w1" .ok true).reg
    ∧ pairInv (sseHandler ⟨[], []⟩ "w1" .ok).reg
    ∧ pairInv (registryCleanup ⟨["w2"], ["w2"]⟩ "w2") :=
  ⟨registry_pairing_amended.1 ⟨[], []⟩ "w1" .ok true (fun _ => Iff.rfl),
   registry_pairing_amended.2.1 ⟨[], []⟩ "w1" (fun _ => Iff.rfl),
   registry_pairing_amended.2.2 ⟨["w2"], ["w2"]⟩ "w2" (fun _ => Iff.rfl)⟩

/-- Counterexample to C2 as stated: on an upstream 401 the `/sse` handler
does respond 401, but the attempted session id remains registered in
`webAppTransports` - it is not true that neither map contains an entry. -/
theorem sse_401_keeps_webapp_entry :
    (sseHandler ⟨[], []⟩ "s2" .authErr401).status = some 401
    ∧ "s2" ∈ (sseHandler ⟨[], []⟩ "s2" .authErr401).reg.webApp := by
  decide

/-- C2 as amended: an upstream 401 is surfaced as status 401 with exactly
one connect attempt (no retry) in both flows; in the `/mcp` flow the
registry is completely untouched (no session registered), while in the
`/sse` flow no backing entry is added but the client-facing entry created at
stream setup remains in `webAppTransports`. -/
theorem upstream401_no_retry :
    (∀ (R : Registry) (sid : String) (b : Bool),
        mcpPostNewSession R sid .authErr401 b = ⟨R, some 401, 1⟩)
    ∧ (∀ (R : Registry) (sid : String),
        sseHandler R sid .authErr401 = ⟨⟨sid :: R.webApp, R.backing⟩, some 401, 1⟩) :=
  ⟨fun _ _ _ => rfl, fun _ _ => rfl⟩

/- ## Close propagation for a registered pair (C3) -/

/-- The state of one registered session: whether its id is still present in
each registry map, and whether each of its two transports has been closed. -/
structure SessState where
  webReg : Bool
  backReg : Bool
  webClosed : Bool
  backClosed : Bool
deriving DecidableEq

/-- Modelled from the spec: the Message Proxy / Pump (`mcpProxy.js`), which
index.ts imports but whose source is not provided, reacts to either side's
`onclose` by stopping forwarding, unregistering the session and closing the
other side's transport if it is still open (spec §4.5); composed with the
`webAppTransport.onclose` handlers of index.ts, which delete both registry
entries (and, in the `/stdio` flow, also call `backingServerTransport.close()`).
`fireClose fuel isWeb s` delivers a close event to the client-facing side
(`isWeb = true`) or the agent-facing side (`isWeb = false`); an already
closed side absorbs the event, otherwise the handlers run and the induced
close of the other side is delivered recursively. -/
def fireClose : Nat → Bool → SessState → SessState
  | 0, _, s => s
  | fuel + 1, true, s =>
    if s.webClosed then s
    else
      let s1 : SessState := ⟨false, false, true, s.backClosed⟩
      if s1.backClosed then s1 else fireClose fuel false s1
  | fuel + 1, false, s =>
    if s.backClosed then s
    else
      let s1 : SessState := ⟨false, false, s.webClosed, true⟩
      if s1.webClosed then s1 else fireClose fuel true s1

/-- C3: starting from a fully registered open pair, a close of either
transport closes the other transport as well (invoking its `close` only if
it is still open) and removes both registry entries together, so a
subsequent lookup of the session id finds nothing; the same final state is
reached when the other side was already closed. -/
theorem close_propagation :
    fireClose 2 true ⟨true, true, false, false⟩ = ⟨false, false, true, true⟩
    ∧ fireClose 2 false ⟨true, true, false, false⟩ = ⟨false, false, true, true⟩
    ∧ fireClose 2 true ⟨true, true, false, true⟩ = ⟨false, false, true, true⟩
    ∧ fireClose 2 false ⟨true, true, true, false⟩ = ⟨false, false, true, true⟩ := by
  decide

/- ## Port Allocator (index.ts, findAvailablePort / startServer) -/

/-- What the operating system answers when `server.listen(port)` is tried:
the bind succeeds, fails with `EADDRINUSE`, or fails with some other error
code. -/
inductive BindOutcome
  | success
  | addrInUse
  | failure (code : String)
deriving DecidableEq

/-- Observable probe events: a successful ephemeral bind and its release. -/
inductive PortEvent
  | listen (p : Nat)
  | close (p : Nat)
deriving DecidableEq

/-- `findAvailablePort(startPort)`: try to bind; on success close the
ephemeral server and resolve with the bound port; on `EADDRINUSE` recurse on
the next port; on any other error reject with that error.  The recursion is
run with explicit fuel (`none` = fuel exhausted, which under the theorems'
hypotheses never happens); alongside the result the trace of successful
bind/release events is returned. -/
def findAvailablePort (os : Nat → BindOutcome) :
    Nat → Nat → Option (Except String Nat) × List PortEvent
  | 0, _ => (none, [])
  | fuel + 1, startPort =>
    match os startPort with
    | .success => (some (.ok startPort), [.listen startPort, .close startPort])
    | .addrInUse => findAvailablePort os fuel (startPort + 1)
    | .failure c => (some (.error c), [])

/-- `startServer()`: await `findAvailablePort(PORT)` and listen there; a
rejection is caught and the process exits with code 1.  The returned value
is the exit code (`none` = the server keeps running). -/
def startServer (os : Nat → BindOutcome) (fuel pref : Nat) : Option Nat :=
  match (findAvailablePort os fuel pref).1 with
  | some (.ok _) => none
  | some (.error _) => some 1
  | none => none

theorem findAvailablePort_success (os : Nat → BindOutcome) (fuel p q : Nat)
    (hpq : p ≤ q) (hin : ∀ r, p ≤ r → r < q → os r = .addrInUse)
    (hq : os q = .success) (hfuel : q - p < fuel) :
    findAvailablePort os fuel p = (some (.ok q), [.listen q, .close q]) := by
  induction fuel generalizing p with
  | zero => omega
  | succ fuel ih =>
    by_cases hpq' : p = q
    · subst hpq'
      simp [findAvailablePort, hq]
    · have hlt : p < q := lt_of_le_of_ne hpq hpq'
      have hp : os p = .addrInUse := hin p le_rfl hlt
      simp only [findAvailablePort, hp]
      exact ih (p + 1) (by omega) (fun r h1 h2 => hin r (by omega) h2) (by omega)

theorem findAvailablePort_failure (os : Nat → BindOutcome) (fuel p q : Nat) (c : String)
    (hpq : p ≤ q) (hin : ∀ r, p ≤ r → r < q → os r = .addrInUse)
    (hq : os q = .failure c) (hfuel : q - p < fuel) :
    findAvailablePort os fuel p = (some (.error c), []) := by
  induction fuel generalizing p with
  | zero => omega
  | succ fuel ih =>
    by_cases hpq' : p = q
    · subst hpq'
      simp [findAvailablePort, hq]
    · have hlt : p < q := lt_of_le_of_ne hpq hpq'
      have hp : os p = .addrInUse := hin p le_rfl hlt
      simp only [findAvailablePort, hp]
      exact ih (p + 1) (by omega) (fun r h1 h2 => hin r (by omega) h2) (by omega)

/-- C7: when the preferred port `p` and every port up to `q` are occupied
(`EADDRINUSE`) and `q` binds, the allocator resolves with `q` - the smallest
port at or above `p` that binds successfully - and its trace shows the
single successful ephemeral bind released before resolution, so the server
starts; when instead some probe fails with an error code other than
`EADDRINUSE`, the allocator rejects with that error (binding nothing) and
the process exits with code 1. -/
theorem port_allocator_correct :
    (∀ (os : Nat → BindOutcome) (fuel p q : Nat),
        p ≤ q → (∀ r, p ≤ r → r < q → os r = .addrInUse) → os q = .success →
        q - p < fuel →
        findAvailablePort os fuel p = (some (.ok q), [.listen q, .close q])
        ∧ (∀ r, p ≤ r → os r = .success → q ≤ r)
        ∧ startServer os fuel p = none)
    ∧ (∀ (os : Nat → BindOutcome) (fuel p q : Nat) (c : String),
        p ≤ q → (∀ r, p ≤ r → r < q → os r = .addrInUse) → os q = .failure c →
        q - p < fuel →
        findAvailablePort os fuel p = (some (.error c), [])
        ∧ startServer os fuel p = some 1) := by
  constructor
  · intro os fuel p q hpq hin hq hfuel
    have hmain := findAvailablePort_success os fuel p q hpq hin hq hfuel
    refine ⟨hmain, ?_, ?_⟩
    · intro r hrp hrs
      by_contra hqr
      push_neg at hqr
      have hr := hin r hrp hqr
      rw [hr] at hrs
      exact BindOutcome.noConfusion hrs
    · simp [startServer, hmain]
  · intro os fuel p q c hpq hin hq hfuel
    have hmain := findAvailablePort_failure os fuel p q c hpq hin hq hfuel
    exact ⟨hmain, by simp [startServer, hmain]⟩

/-- An operating system where ports 6277 and 6278 are taken and everything
above is free. -/
def osBusyTwo : Nat → BindOutcome :=
  fun n => if n = 6277 || n = 6278 then .addrInUse else .success

/-- An operating system where port 7000 is taken and probing 7001 hits a
permission error. -/
def osPermErr : Nat → BindOutcome :=
  fun n => if n = 7000 then .addrInUse else if n = 7001 then .failure "EACCES" else .success

/-- Witness for C7 on the two concrete operating systems. -/
theorem port_allocator_correct_witness :
    (findAvailablePort osBusyTwo 10 6277 = (some (.ok 6279), [.listen 6279, .close 6279])
      ∧ (∀ r, 6277 ≤ r → osBusyTwo r = .success → 6279 ≤ r)
      ∧ startServer osBusyTwo 10 6277 = none)
    ∧ (findAvailablePort osPermErr 10 7000 = (some (.error "EACCES"), [])
      ∧ startServer osPermErr 10 7000 = some 1) :=
  ⟨port_allocator_correct.1 osBusyTwo 10 6277 6279 (by omega)
      (by
        intro r h1 h2
        have : r = 6277 ∨ r = 6278 := by omega
        rcases this with rfl | rfl <;> decide)
      (by decide) (by omega),
   port_allocator_correct.2 osPermErr 10 7000 7001 "EACCES" (by omega)
      (by
        intro r h1 h2
        have : r = 7000 := by omega
        subst this
        decide)
      (by decide) (by omega)⟩

/- ## Environment merge for /stdio (index.ts) -/

/-- A JavaScript object as an assignment sequence of key/value pairs; a
later assignment overrides an earlier one. -/
abbrev EnvObj := List (String × String)

/-- Property access on the object: the last assignment for the key wins. -/
def objGet (o : EnvObj) (k : String) : Option String :=
  o.foldl (fun acc p => if p.1 = k then some p.2 else acc) none

/-- Spread precedence combinator: take the first operand's value when
present, otherwise fall back to the second. -/
def orOpt (a b : Option String) : Option String :=
  match a with
  | some v => some v
  | none => b

/-- `defaultEnvironment = { ...getDefaultEnvironment(), ...MCP_ENV_VARS }`. -/
def defaultEnvironment (ghDefault mcpEnvVars : EnvObj) : EnvObj :=
  ghDefault ++ mcpEnvVars

/-- The `/stdio` handler's environment for the spawned process:
`{ ...process.env, ...defaultEnvironment, ...queryEnv }`. -/
def stdioEnv (procEnv ghDefault mcpEnvVars queryEnv : EnvObj) : EnvObj :=
  procEnv ++ defaultEnvironment ghDefault mcpEnvVars ++ queryEnv

theorem objGet_foldl_init (o : EnvObj) (k : String) (i : Option String) :
    o.foldl (fun acc p => if p.1 = k then some p.2 else acc) i
      = orOpt (objGet o k) i := by
  induction o generalizing i with
  | nil => simp [objGet, orOpt]
  | cons p o ih =>
    simp only [List.foldl_cons, ih]
    rw [show objGet (p :: o) k
          = orOpt (objGet o k) (if p.1 = k then some p.2 else none) from by
        simp only [objGet, List.foldl_cons]
        rw [show List.foldl (fun acc q => if q.1 = k then some q.2 else acc)
              (if p.1 = k then some p.2 else none) o
            = o.foldl (fun acc q => if q.1 = k then some q.2 else acc)
                (if p.1 = k then some p.2 else none) from rfl]
        exact ih _]
    cases objGet o k with
    | none => by_cases hp : p.1 = k <;> simp [orOpt, hp]
    | some v => simp [orOpt]

theorem objGet_append (a b : EnvObj) (k : String) :
    objGet (a ++ b) k = orOpt (objGet b k) (objGet a k) := by
  simp only [objGet, List.foldl_append]
  exact objGet_foldl_init b k _

/-- C8: property lookup in the environment passed to the spawned `/stdio`
process follows the precedence `queryEnv` over `MCP_ENV_VARS` over
`getDefaultEnvironment()` over `process.env` - for any key, the value is
the first of these layers, in that order, that defines it. -/
theorem stdio_env_precedence (procEnv ghDefault mcpEnvVars queryEnv : EnvObj) (k : String) :
    objGet (stdioEnv procEnv ghDefault mcpEnvVars queryEnv) k
      = orOpt (objGet queryEnv k)
          (orOpt (objGet mcpEnvVars k) (orOpt (objGet ghDefault k) (objGet procEnv k))) := by
  simp only [stdioEnv, defaultEnvironment]
  rw [objGet_append, objGet_append, objGet_append]
  cases objGet queryEnv k <;> cases objGet mcpEnvVars k <;>
    cases objGet ghDefault k <;> simp [orOpt]
